import Mathlib

/-!
Verification of the server-side build step of the `kit` repository.

The definitions below are a shallow embedding of
`src/packages/kit/src/exports/vite/build/build_server.js` and
`src/packages/kit/src/runtime/server/index.js`.  JavaScript `Map` objects
and plain records used as dictionaries are embedded as association lists
(`List (String × α)`): `Map.set` and property assignment overwrite an
existing key in place and append a new key at the end, `Map.get` /
property lookup return the first (unique) matching entry, and `Map.size`
is the number of entries.  Helpers from `vite/build/utils.js`
(`find_deps`, `resolve_symlinks`, `is_http_method`) are not part of the
sources and are modelled from the specification, as marked in their doc
comments.
-/

set_option autoImplicit false

universe u

/-- Lookup in an association list: first entry whose key matches, embedding a
JavaScript `Map.get` / object property read (keys are unique by
construction). -/
def getA {α : Type u} : List (String × α) → String → Option α
  | [], _ => none
  | p :: rest, k => if p.1 == k then some p.2 else getA rest k

/-- Key-presence test, embedding `Map.has`. -/
def hasA {α : Type u} (l : List (String × α)) (k : String) : Bool :=
  (getA l k).isSome

/-- Update in an association list, embedding `Map.set` / object property
write: an existing key keeps its position and gets the new value, a new key
is appended at the end. -/
def setA {α : Type u} : List (String × α) → String → α → List (String × α)
  | [], k, v => [(k, v)]
  | p :: rest, k, v => if p.1 == k then (k, v) :: rest else p :: setA rest k v

/-! ## Stylesheet inliner (build_server.js, lines 177-189)

The source iterates over `client.assets`; for each asset whose file name
ends in `.css` and whose source is strictly smaller than
`config.kit.inlineStyleThreshold`, it takes `index = stylesheet_lookup.size`,
writes the standalone module `stylesheets/index.js` and records
`stylesheet_lookup.set(asset.fileName, index)`.  The generated file write is
a side effect that carries no information beyond the recorded pair, so the
embedding keeps just the lookup table. -/

/-- Embedding of the JavaScript string `endsWith` test (build_server.js line
180), defined on the character lists so that concrete instances reduce in
the kernel. -/
def ends_with (s suffix : String) : Bool :=
  suffix.data.isSuffixOf s.data

/-- Embedding of the JavaScript string `startsWith` test
(runtime/server/index.js lines 24-25), defined on the character lists so
that concrete instances reduce in the kernel. -/
def starts_with (s pre : String) : Bool :=
  pre.data.isPrefixOf s.data

/-- Rollup output asset, with the two fields the source reads:
`asset.fileName` and `asset.source` (whose `.length` is compared with the
threshold). -/
structure OutputAsset where
  fileName : String
  source : String
  deriving Repr, DecidableEq

/-- Body of the `client.assets.forEach` callback of build_server.js lines
179-189, acting on the current `stylesheet_lookup` table. -/
def consider_asset (threshold : Nat) (lookup : List (String × Nat))
    (asset : OutputAsset) : List (String × Nat) :=
  if ends_with asset.fileName ".css" then
    if asset.source.length < threshold then
      setA lookup asset.fileName lookup.length
    else lookup
  else lookup

/-- Construction of `stylesheet_lookup` by the full `client.assets.forEach`
loop of build_server.js lines 179-189. -/
def build_stylesheet_lookup (threshold : Nat) (assets : List OutputAsset) :
    List (String × Nat) :=
  assets.foldl (consider_asset threshold) []

/-! ## Artifact-graph resolution

`find_deps` and `resolve_symlinks` are imported by build_server.js from
`vite/build/utils.js`, a file that is not among the sources; they are
modelled from spec sections 4.1, 4.2 and 7. -/

/-- Errors that abort the build.  `missingManifestEntry` embeds the
MissingManifestEntry condition of spec section 7, raised by the modelled
`resolve_symlinks` with the offending path recorded.  `typeError` embeds the
uncaught JavaScript `TypeError` raised when the source reads a property
(for example `.file`) of `undefined` after an unguarded manifest index; its
message carries the property name, never the looked-up path. -/
inductive BuildError where
  | missingManifestEntry (file : String)
  | typeError (prop : String)
  deriving Repr, DecidableEq

/-- Entry of the compiled-output dependency graph, spec section 3
(ArtifactGraph): `file` is the compiled output path (`compiledFile`),
`imports` the static import edges (`importedModules`), `css` the stylesheet
assets (`cssAssets`), `fonts` the font-type assets associated with the
module (spec section 4.2), `isDynamicEntry` the lazy-entry flag. -/
structure GraphEntry where
  file : String
  imports : List String
  css : List String
  fonts : List String
  isDynamicEntry : Bool
  deriving Repr, DecidableEq

/-- Modelled from the spec: `resolve_symlinks` (vite/build/utils.js, not
among the sources).  Spec sections 4.1 and 7: the looked-up path and the
manifest keys are resolved to their physical-filesystem identity — the
`canon` parameter — and the lookup is re-keyed against the entries resolved
the same way; when no entry matches, the MissingManifestEntry condition
aborts with the offending path named.  The matching key is returned with the
chunk, as call sites use both `.chunk` and the re-keyed file. -/
def resolve_symlinks (canon : String → String)
    (manifest : List (String × GraphEntry)) (file : String) :
    Except BuildError (String × GraphEntry) :=
  match manifest.find? (fun p => canon p.1 == canon file) with
  | some p => .ok p
  | none => .error (.missingManifestEntry file)

/-- Insertion into a traversal result set, keeping first-seen order
(spec section 4.2: insertion order follows traversal order). -/
def insertUniq (xs : List String) (x : String) : List String :=
  if x ∈ xs then xs else xs ++ [x]

/-- Accumulated traversal state of the modelled `find_deps`: visited
canonical identities and the three result sets of spec section 3
(ResolvedEntry), in traversal order. -/
structure DepState where
  seen : List String
  imports : List String
  stylesheets : List String
  fonts : List String
  deriving Repr, DecidableEq

/-- Modelled from the spec: the depth-first traversal inside `find_deps`
(vite/build/utils.js, not among the sources), spec section 4.2.  The
worklist holds pending module paths, each flagged when it is the entry
module, whose own compiled file is not added to `imports` ("except the
entry itself").  A module whose canonical identity is already in `seen` is
skipped; otherwise it contributes its compiled file (non-entry), its
`cssAssets` and its font assets, and its static import edges are pushed in
front of the worklist (depth-first).  `fuel` is an embedding artifact
bounding the number of worklist pops; `find_deps` supplies enough for any
full traversal. -/
def dfs (canon : String → String) (manifest : List (String × GraphEntry)) :
    Nat → List (String × Bool) → DepState → Except BuildError DepState
  | 0, _, st => .ok st
  | _ + 1, [], st => .ok st
  | fuel + 1, (file, isEntry) :: rest, st =>
    match resolve_symlinks canon manifest file with
    | .error e => .error e
    | .ok (key, chunk) =>
      if key ∈ st.seen then dfs canon manifest fuel rest st
      else
        dfs canon manifest fuel (chunk.imports.map (fun f => (f, false)) ++ rest)
          { seen := st.seen ++ [key]
            imports := if isEntry then st.imports else insertUniq st.imports chunk.file
            stylesheets := chunk.css.foldl insertUniq st.stylesheets
            fonts := chunk.fonts.foldl insertUniq st.fonts }

/-- Result of `find_deps`, spec section 3 (ResolvedEntry).  Field names
follow the source call sites (`entry.file`, `entry.imports`,
`entry.stylesheets`, `entry.fonts`); `imports` is the spec's
`importedChunks` set. -/
structure ResolvedEntry where
  file : String
  imports : List String
  stylesheets : List String
  fonts : List String
  deriving Repr, DecidableEq

/-- Fuel sufficient for a full traversal: one pop for the entry plus one pop
per import edge of every manifest entry, plus slack. -/
def graph_fuel (manifest : List (String × GraphEntry)) : Nat :=
  manifest.foldl (fun n p => n + 1 + p.2.imports.length) 1

/-- Modelled from the spec: `find_deps` (vite/build/utils.js, not among the
sources), spec section 4.2 — resolve the entry, run the depth-first
traversal from it with an empty state, and package the result sets with the
entry's own compiled file. -/
def find_deps (canon : String → String) (manifest : List (String × GraphEntry))
    (entry : String) : Except BuildError ResolvedEntry :=
  match resolve_symlinks canon manifest entry with
  | .error e => .error e
  | .ok (_, echunk) =>
    match dfs canon manifest (graph_fuel manifest) [(entry, true)] ⟨[], [], [], []⟩ with
    | .error e => .error e
    | .ok st => .ok ⟨echunk.file, st.imports, st.stylesheets, st.fonts⟩

/-- Diamond artifact graph of spec section 8: A imports B and C, both B and
C import D, and D carries one stylesheet and one font asset. -/
def diamond_graph : List (String × GraphEntry) :=
  [("A.js", ⟨"A.out", ["B.js", "C.js"], ["a.css"], [], false⟩),
   ("B.js", ⟨"B.out", ["D.js"], [], [], false⟩),
   ("C.js", ⟨"C.out", ["D.js"], [], [], false⟩),
   ("D.js", ⟨"D.out", [], ["d.css"], ["d.woff"], false⟩)]

/-! ## Node manifest emission (build_server.js, lines 191-264)

For each route node the source accumulates two string arrays, `imports` and
`exports`, and writes their lines to `nodes/i.js`.  Each emitted line is one
of a fixed set of template literals; the embedding represents a line by a
constructor carrying the interpolated values, and `render_line` maps it back
to the exact generated text. -/

/-- One line of a generated node module; each constructor matches one
template literal pushed into `imports` or `exports` in build_server.js lines
198-259.  `exportStrArr` covers the three serialized array exports
(`imports`, `stylesheets`, `fonts`); `exportInlineStyles` the
`inline_styles` accessor with its (asset path, slot) entries. -/
inductive EmitLine where
  | importStar (name file : String)
  | importStylesheet (index : Nat)
  | exportIndex (index : Nat)
  | exportLazy (name file : String)
  | exportFile (file : String)
  | exportNames (name : String)
  | exportStrArr (name : String) (values : List String)
  | exportInlineStyles (entries : List (String × Nat))
  deriving Repr, DecidableEq

/-- Rendering of an emitted line to the exact generated text.  `sf` stands
for the string serializer `s` imported from `utils/misc.js` (not among the
sources), which the source applies to every interpolated string value. -/
def render_line (sf : String → String) : EmitLine → String
  | .importStar name file =>
      "import * as " ++ name ++ " from \x27../" ++ file ++ "\x27;"
  | .importStylesheet idx =>
      "import stylesheet_" ++ toString idx ++ " from \x27../stylesheets/" ++
        toString idx ++ ".js\x27;"
  | .exportIndex i => "export const index = " ++ toString i ++ ";"
  | .exportLazy name file =>
      "export const " ++ name ++ " = async () => (await import(\x27../" ++
        file ++ "\x27)).default;"
  | .exportFile file => "export const file = \x27" ++ file ++ "\x27;"
  | .exportNames name => "export \x7b " ++ name ++ " \x7d;"
  | .exportStrArr name xs =>
      "export const " ++ name ++ " = [" ++
        String.intercalate "," (xs.map sf) ++ "];"
  | .exportInlineStyles entries =>
      "export const inline_styles = () => (\x7b\n" ++
        String.intercalate ",\n"
          (entries.map (fun e => "\t" ++ sf e.1 ++ ": stylesheet_" ++ toString e.2)) ++
        "\n\x7d);"

/-- Files of one route node (an entry of `manifest_data.nodes`): the visual
component, the shared (`universal`) logic module and the server-only logic
module, each optional. -/
structure PageNode where
  component : Option String
  universal : Option String
  server : Option String
  deriving Repr, DecidableEq

/-- Accumulated state of the per-node emission loop: the `imports` and
`exports` line arrays and the `imported` / `stylesheets` / `fonts` asset
accumulators of build_server.js lines 192-207. -/
structure EmitAcc where
  imports : List EmitLine
  exports : List EmitLine
  imported : List String
  stylesheets : List String
  fonts : List String
  deriving Repr, DecidableEq

/-- Component block of the emission loop (build_server.js lines 209-222):
resolve the component against the client manifest with `find_deps`, merge
its assets, and push a lazy loader (deferred `import()`) whose target is the
symlink-resolved server chunk, plus the `file` export. -/
def emit_component (canon : String → String) (cm sm : List (String × GraphEntry))
    (acc : EmitAcc) : Option String → Except BuildError EmitAcc
  | none => .ok acc
  | some c =>
    match find_deps canon cm c with
    | .error e => .error e
    | .ok entry =>
      match resolve_symlinks canon sm c with
      | .error e => .error e
      | .ok res =>
        .ok { acc with
          imported := acc.imported ++ entry.imports
          stylesheets := acc.stylesheets ++ entry.stylesheets
          fonts := acc.fonts ++ entry.fonts
          exports := acc.exports ++
            [EmitLine.exportLazy "component" res.2.file,
             EmitLine.exportFile entry.file] }

/-- Universal block of the emission loop (build_server.js lines 224-233):
resolve assets with `find_deps`, then push a direct `import * as universal`
of `vite_manifest[node.universal].file` — an unguarded index into the server
manifest, so a missing entry raises a TypeError reading `.file` of
`undefined` — and the `export { universal };` line. -/
def emit_universal (canon : String → String) (cm sm : List (String × GraphEntry))
    (acc : EmitAcc) : Option String → Except BuildError EmitAcc
  | none => .ok acc
  | some u =>
    match find_deps canon cm u with
    | .error e => .error e
    | .ok entry =>
      match getA sm u with
      | none => .error (.typeError "file")
      | some chunk =>
        .ok { acc with
          imported := acc.imported ++ entry.imports
          stylesheets := acc.stylesheets ++ entry.stylesheets
          fonts := acc.fonts ++ entry.fonts
          imports := acc.imports ++ [EmitLine.importStar "universal" chunk.file]
          exports := acc.exports ++ [EmitLine.exportNames "universal"] }

/-- Server block of the emission loop (build_server.js lines 235-238): a
direct `import * as server` of `vite_manifest[node.server].file` — again an
unguarded index — and the `export { server };` line.  No `find_deps` call
is made for the server-logic role. -/
def emit_server (sm : List (String × GraphEntry)) (acc : EmitAcc) :
    Option String → Except BuildError EmitAcc
  | none => .ok acc
  | some sv =>
    match getA sm sv with
    | none => .error (.typeError "file")
    | some chunk =>
      .ok { acc with
        imports := acc.imports ++ [EmitLine.importStar "server" chunk.file]
        exports := acc.exports ++ [EmitLine.exportNames "server"] }

/-- Inline-style loop of build_server.js lines 249-256: for each discovered
stylesheet with an assigned slot, push the slot-module import line and the
accessor entry. -/
def style_lines (lookup : List (String × Nat)) (stylesheets : List String) :
    List EmitLine × List (String × Nat) :=
  stylesheets.foldl
    (fun acc file =>
      match getA lookup file with
      | some idx => (acc.1 ++ [EmitLine.importStylesheet idx], acc.2 ++ [(file, idx)])
      | none => acc)
    ([], [])

/-- Tail of the emission loop (build_server.js lines 240-263): push the three
serialized asset arrays, then the inline-style imports and, when at least
one style was inlined, the `inline_styles` accessor. -/
def emit_finish (lookup : List (String × Nat)) (acc : EmitAcc) :
    List EmitLine × List EmitLine :=
  let exps := acc.exports ++
    [EmitLine.exportStrArr "imports" acc.imported,
     EmitLine.exportStrArr "stylesheets" acc.stylesheets,
     EmitLine.exportStrArr "fonts" acc.fonts]
  let sl := style_lines lookup acc.stylesheets
  (acc.imports ++ sl.1,
   if 0 < sl.2.length then exps ++ [EmitLine.exportInlineStyles sl.2] else exps)

/-- Emission of one node module (body of the `manifest_data.nodes.forEach`
callback, build_server.js lines 191-264): the component, universal and
server blocks run in order on the accumulator seeded with the `index`
export, and the tail appends the asset arrays and inline styles.  `cm` is
`client.vite_manifest`, `sm` the server `vite_manifest`, `lookup` the
`stylesheet_lookup` table. -/
def emit_node (canon : String → String) (cm sm : List (String × GraphEntry))
    (lookup : List (String × Nat)) (i : Nat) (node : PageNode) :
    Except BuildError (List EmitLine × List EmitLine) :=
  match emit_component canon cm sm ⟨[], [EmitLine.exportIndex i], [], [], []⟩ node.component with
  | .error e => .error e
  | .ok acc1 =>
    match emit_universal canon cm sm acc1 node.universal with
    | .error e => .error e
    | .ok acc2 =>
      match emit_server sm acc2 node.server with
      | .error e => .error e
      | .ok acc3 => .ok (emit_finish lookup acc3)

/-- Concrete client manifest for emission examples: the component pulls one
stylesheet, the universal module none. -/
def c4_client_manifest : List (String × GraphEntry) :=
  [("c.svelte", ⟨"c-client.js", [], ["c.css"], [], false⟩),
   ("u.js", ⟨"u-client.js", [], [], [], false⟩)]

/-- Concrete server manifest for emission examples, with entries for all
three node roles. -/
def c4_server_manifest : List (String × GraphEntry) :=
  [("c.svelte", ⟨"c-server.js", [], [], [], false⟩),
   ("u.js", ⟨"u-server.js", [], [], [], false⟩),
   ("s.js", ⟨"s-server.js", [], [], [], false⟩)]

/-- Concrete node with all three roles present. -/
def c4_node : PageNode :=
  ⟨some "c.svelte", some "u.js", some "s.js"⟩

/-- Import lines emitted for `c4_node`: both the universal and the server
role are direct (synchronous) star imports. -/
def c4_imports : List EmitLine :=
  [EmitLine.importStar "universal" "u-server.js",
   EmitLine.importStar "server" "s-server.js"]

/-- Export lines emitted for `c4_node`: only the component is behind a lazy
loader; universal and server are direct re-exports. -/
def c4_exports : List EmitLine :=
  [EmitLine.exportIndex 0,
   EmitLine.exportLazy "component" "c-server.js",
   EmitLine.exportFile "c-client.js",
   EmitLine.exportNames "universal",
   EmitLine.exportNames "server",
   EmitLine.exportStrArr "imports" [],
   EmitLine.exportStrArr "stylesheets" ["c.css"],
   EmitLine.exportStrArr "fonts" []]

/-- Modelled from the spec: `is_http_method` (vite/build/utils.js, not among
the sources).  Spec section 3, MethodTable invariant: only names drawn from
the fixed set GET, POST, PUT, PATCH, DELETE, OPTIONS, HEAD are retained. -/
def is_http_method (name : String) : Bool :=
  ["GET", "POST", "PUT", "PATCH", "DELETE", "OPTIONS", "HEAD"].contains name

/-- Rollup output chunk, with the two fields `get_methods` reads:
`facadeModuleId` (nullable) and the `exports` name list. -/
structure OutputChunk where
  facadeModuleId : Option String
  exports : List String
  deriving Repr, DecidableEq

/-- Route of the manifest, with the fields `get_methods` reads:
`endpoint` stands for `route.endpoint?.file` and `leaf_server` for
`route.leaf?.server`, each optional chain collapsed into one optional
field. -/
structure Route where
  endpoint : Option String
  leaf_server : Option String
  deriving Repr, DecidableEq

/-- Lookup construction of `get_methods` (build_server.js lines 280-285):
every chunk with a truthy `facadeModuleId` records its export list under
the posixified cwd-relative id; `canon` stands for
`posixify(path.relative(cwd, id))`.  JavaScript truthiness: a missing or
empty id is skipped. -/
def build_lookup (canon : String → String) (output : List OutputChunk) :
    List (String × List String) :=
  output.foldl
    (fun lk chunk =>
      match chunk.facadeModuleId with
      | none => lk
      | some id => if id = "" then lk else setA lk (canon id) chunk.exports)
    []

/-- Guarded insertion shared by the two blocks of the routes loop
(build_server.js lines 291-293 and 297-299): when `lookup[file]` exists,
store its export list filtered to the HTTP method names under `file`;
otherwise leave the table alone. -/
def method_insert (lookup methods : List (String × List String)) (f : String) :
    List (String × List String) :=
  match getA lookup f with
  | none => methods
  | some exps => setA methods f (exps.filter is_http_method)

/-- Body of the `manifest_data.routes.forEach` callback of `get_methods`
(build_server.js lines 289-301).  JavaScript truthiness: `route.leaf?.server`
is falsy when absent or empty; `lookup[file]` is falsy only when absent (an
array, even empty, is truthy). -/
def route_step (lookup : List (String × List String))
    (methods : List (String × List String)) (route : Route) :
    List (String × List String) :=
  let methods1 :=
    match route.endpoint with
    | none => methods
    | some f => method_insert lookup methods f
  match route.leaf_server with
  | none => methods1
  | some f => if f = "" then methods1 else method_insert lookup methods1 f

/-- Embedding of `get_methods` (build_server.js lines 278-304): build the
facade-id lookup from the output chunks, then fold the routes into the
method table. -/
def get_methods (canon : String → String) (output : List OutputChunk)
    (routes : List Route) : List (String × List String) :=
  let lookup := build_lookup canon output
  routes.foldl (route_step lookup) []

/-- Concrete compiled output used in witnesses: one chunk whose facade
module is an endpoint file exporting GET, POST, config and default. -/
def methods_output : List OutputChunk :=
  [⟨some "src/routes/x/+server.js", ["GET", "POST", "config", "default"]⟩]

/-- Concrete route list used in witnesses: one route whose endpoint file is
the facade module of `methods_output`. -/
def methods_routes : List Route :=
  [⟨some "src/routes/x/+server.js", none⟩]

/-! ## Server entry generation (build_server.js, lines 27-80 and 150-160) -/

/-- Body of the generated `get_hooks` function (build_server.js line 78):
either a deferred `import(...)` of the hooks path or the empty object
literal. -/
inductive HooksExpr where
  | deferredImport (path : String)
  | emptyObject
  deriving Repr, DecidableEq

/-- Choice made by the template expression `hooks ? import(s(hooks)) : hooks
absent` on line 78.  JavaScript truthiness: a null or empty `hooks` string
selects the empty object literal. -/
def server_template_hooks (hooks : Option String) : HooksExpr :=
  match hooks with
  | some h => if h = "" then .emptyObject else .deferredImport h
  | none => .emptyObject

/-- Rendering of the generated `get_hooks` function text, line 77-79 of
build_server.js; `sf` stands for the serializer `s` from utils/misc.js. -/
def render_get_hooks (sf : String → String) (hooks : Option String) : String :=
  "export function get_hooks() \x7b\n\treturn " ++
    (match server_template_hooks hooks with
     | .deferredImport p => "import(" ++ sf p ++ ")"
     | .emptyObject => "\x7b\x7d") ++
    ";\n\x7d"

/-- Hooks argument passed to `server_template` at build_server.js line 154:
the internal-module-relative path when the hooks file exists on disk,
otherwise null. -/
def hooks_arg (hooks_file_exists : Bool) (rel : String) : Option String :=
  if hooks_file_exists then some rel else none

/-! ## Runtime `Server.init` (runtime/server/index.js, lines 18-44) -/

/-- Hook record assembled by `Server.init` (runtime/server/index.js lines
33-42).  The three members are request-handling functions, opaque to this
model, hence the type parameters. -/
structure Hooks (H E F : Type u) where
  handle : H
  handleError : E
  handleFetch : F

/-- Shape of the module produced by `get_hooks()`: each hook export may be
missing, in which case `||` substitutes the built-in fallback. -/
structure HookModule (H E F : Type u) where
  handle : Option H
  handleError : Option E
  handleFetch : Option F

/-- Hook assembly of runtime/server/index.js lines 33-42: each member is the
module export when present, else the built-in fallback (the fallback
closures are opaque values here). -/
def mk_hooks {H E F : Type u} (fallbacks : Hooks H E F) (m : HookModule H E F) :
    Hooks H E F :=
  ⟨m.handle.getD fallbacks.handle,
   m.handleError.getD fallbacks.handleError,
   m.handleFetch.getD fallbacks.handleFetch⟩

/-- State touched by `Server.init`: `this.options.hooks` plus the private
and public environment tables reached through `set_private_env` and
`set_public_env`. -/
structure ServerState (H E F : Type u) where
  hooks : Option (Hooks H E F)
  private_env : List (String × String)
  public_env : List (String × String)

/-- Embedding of `Object.fromEntries`: later entries with the same key
overwrite earlier ones; keys keep first-insertion order. -/
def fromEntries (entries : List (String × String)) : List (String × String) :=
  entries.foldl (fun acc kv => setA acc kv.1 kv.2) []

/-- Embedding of `Server.init` (runtime/server/index.js lines 18-44): split
`env` into private (key does not start with the public prefix) and public
(key does) tables, install both, then assemble the hooks only when
`this.options.hooks` is not yet set. -/
def server_init {H E F : Type u} ( public_prefix : String)
    (fallbacks : Hooks H E F) (hook_module : HookModule H E F)
    (st : ServerState H E F) (env : List (String × String)) :
    ServerState H E F :=
  let entries := env
  let prv := fromEntries (entries.filter (fun kv => !(starts_with kv.1 public_prefix)))
  let pub := fromEntries (entries.filter (fun kv => starts_with kv.1 public_prefix))
  let st1 : ServerState H E F := { st with private_env := prv, public_env := pub }
  match st1.hooks with
  | some _ => st1
  | none => { st1 with hooks := some (mk_hooks fallbacks hook_module) }

/-! ## Theorems -/

theorem getA_setA_same {α : Type u} (l : List (String × α)) (k : String) (v : α) :
    getA (setA l k v) k = some v := by
  induction l with
  | nil => simp [setA, getA]
  | cons p rest ih =>
    by_cases h : p.1 = k
    · simp [setA, getA, h]
    · simp only [setA, getA]
      rw [if_neg (by simpa using h)]
      simp only [getA]
      rw [if_neg (by simpa using h)]
      exact ih

theorem getA_setA_ne {α : Type u} (l : List (String × α)) (k j : String) (v : α)
    (h : k ≠ j) : getA (setA l k v) j = getA l j := by
  induction l with
  | nil => simp [setA, getA, h]
  | cons p rest ih =>
    by_cases hp : p.1 = k
    · subst hp
      simp only [setA, getA, beq_self_eq_true, if_true]
      rw [if_neg (by simpa using h), if_neg (by simpa using h)]
    · simp only [setA]
      rw [if_neg (by simpa using hp)]
      simp only [getA]
      by_cases hj : p.1 = j
      · simp [hj]
      · rw [if_neg (by simpa using hj), if_neg (by simpa using hj)]
        exact ih

theorem length_setA_of_get {α : Type u} (l : List (String × α)) (k : String)
    (v w : α) (h : getA l k = some w) : (setA l k v).length = l.length := by
  induction l with
  | nil => simp [getA] at h
  | cons p rest ih =>
    by_cases hp : p.1 = k
    · simp [setA, hp]
    · simp only [getA] at h
      rw [if_neg (by simpa using hp)] at h
      simp only [setA]
      rw [if_neg (by simpa using hp)]
      simp [ih h]

theorem mem_keys_setA {α : Type u} (l : List (String × α)) (k j : String) (v : α) :
    j ∈ (setA l k v).map Prod.fst ↔ j ∈ l.map Prod.fst ∨ j = k := by
  induction l with
  | nil => simp [setA]
  | cons p rest ih =>
    by_cases hp : p.1 = k
    · subst hp
      simp only [setA, beq_self_eq_true, if_true, List.map_cons, List.mem_cons]
      tauto
    · simp only [setA]
      rw [if_neg (by simpa using hp)]
      simp only [List.map_cons, List.mem_cons]
      rw [ih]
      tauto

theorem nodup_insertUniq (xs : List String) (x : String) (h : xs.Nodup) :
    (insertUniq xs x).Nodup := by
  unfold insertUniq
  split
  · exact h
  · rename_i hx
    simp [List.nodup_append, h, hx]

theorem nodup_foldl_insertUniq (ys : List String) :
    ∀ xs : List String, xs.Nodup → (ys.foldl insertUniq xs).Nodup := by
  induction ys with
  | nil => intro xs h; simpa using h
  | cons y ys ih =>
    intro xs h
    simpa using ih (insertUniq xs y) (nodup_insertUniq xs y h)

theorem dfs_nodup (canon : String → String) (manifest : List (String × GraphEntry)) :
    ∀ (fuel : Nat) (work : List (String × Bool)) (st r : DepState),
      dfs canon manifest fuel work st = .ok r →
      st.imports.Nodup → st.stylesheets.Nodup → st.fonts.Nodup →
      r.imports.Nodup ∧ r.stylesheets.Nodup ∧ r.fonts.Nodup := by
  intro fuel
  induction fuel with
  | zero =>
    intro work st r h h1 h2 h3
    simp only [dfs] at h
    cases h
    exact ⟨h1, h2, h3⟩
  | succ fuel ih =>
    intro work st r h h1 h2 h3
    match work with
    | [] =>
      simp only [dfs] at h
      cases h
      exact ⟨h1, h2, h3⟩
    | (file, isEntry) :: rest =>
      simp only [dfs] at h
      cases hres : resolve_symlinks canon manifest file with
      | error e => rw [hres] at h; cases h
      | ok p =>
        obtain ⟨key, chunk⟩ := p
        rw [hres] at h
        dsimp only at h
        by_cases hseen : key ∈ st.seen
        · rw [if_pos hseen] at h
          exact ih rest st r h h1 h2 h3
        · rw [if_neg hseen] at h
          refine ih _ _ r h ?_ ?_ ?_
          · by_cases he : isEntry = true
            · simpa [he] using h1
            · simp only [Bool.not_eq_true] at he
              simpa [he] using nodup_insertUniq st.imports chunk.file h1
          · exact nodup_foldl_insertUniq chunk.css st.stylesheets h2
          · exact nodup_foldl_insertUniq chunk.fonts st.fonts h3

theorem find_deps_nodup (canon : String → String)
    (manifest : List (String × GraphEntry)) (entry : String) (r : ResolvedEntry)
    (h : find_deps canon manifest entry = .ok r) :
    r.imports.Nodup ∧ r.stylesheets.Nodup ∧ r.fonts.Nodup := by
  unfold find_deps at h
  cases hres : resolve_symlinks canon manifest entry with
  | error e => rw [hres] at h; cases h
  | ok p =>
    rw [hres] at h
    cases hdfs : dfs canon manifest (graph_fuel manifest) [(entry, true)] ⟨[], [], [], []⟩ with
    | error e => rw [hdfs] at h; cases h
    | ok st =>
      rw [hdfs] at h
      cases h
      exact dfs_nodup canon manifest _ _ _ _ hdfs (by simp) (by simp) (by simp)

/-- C1: in every artifact graph the resolver's result sets hold no
duplicates — the visited set prevents any shared dependency from being
reprocessed — and in a diamond (A imports B and C, both B and C import D)
resolving A contributes the stylesheet and font assets of D exactly once to
the ResolvedEntry sets. -/
theorem c1_diamond_dedup :
    (∀ (canon : String → String) (manifest : List (String × GraphEntry))
        (entry : String) (r : ResolvedEntry),
        find_deps canon manifest entry = Except.ok r →
        r.imports.Nodup ∧ r.stylesheets.Nodup ∧ r.fonts.Nodup) ∧
    (∃ r : ResolvedEntry, find_deps id diamond_graph "A.js" = Except.ok r ∧
        r.stylesheets.count "d.css" = 1 ∧ r.fonts.count "d.woff" = 1 ∧
        r.imports.count "D.out" = 1) := by
  refine ⟨fun canon manifest entry r h => find_deps_nodup canon manifest entry r h, ?_⟩
  exact ⟨⟨"A.out", ["B.out", "D.out", "C.out"], ["a.css", "d.css"], ["d.woff"]⟩,
    by rfl, by decide, by decide, by decide⟩

/-- Witness for the quantified part of C1, at the concrete diamond graph. -/
theorem c1_diamond_dedup_witness :
    (["B.out", "D.out", "C.out"] : List String).Nodup ∧
    (["a.css", "d.css"] : List String).Nodup ∧
    (["d.woff"] : List String).Nodup :=
  c1_diamond_dedup.1 id diamond_graph "A.js"
    ⟨"A.out", ["B.out", "D.out", "C.out"], ["a.css", "d.css"], ["d.woff"]⟩ (by rfl)

/-- C2: with configured threshold T, a `.css` asset of size T−1 is assigned
an inline slot (the next table index), while assets of size exactly T or of
size T+1 are not assigned a slot — the comparison is strict less-than — and
a slot-less stylesheet yields no inline-style lines, remaining only in the
plain stylesheet-path list. -/
theorem c2_inline_threshold_boundary (T : Nat) (name s1 s2 s3 : String)
    (hcss : ends_with name ".css" = true)
    (h1 : s1.length + 1 = T) (h2 : s2.length = T) (h3 : s3.length = T + 1) :
    getA (build_stylesheet_lookup T [⟨name, s1⟩]) name = some 0 ∧
    getA (build_stylesheet_lookup T [⟨name, s2⟩]) name = none ∧
    getA (build_stylesheet_lookup T [⟨name, s3⟩]) name = none ∧
    style_lines (build_stylesheet_lookup T [⟨name, s2⟩]) [name] = ([], []) := by
  have hlt : s1.length < T := by omega
  have hnlt2 : ¬ s2.length < T := by omega
  have hnlt3 : ¬ s3.length < T := by omega
  refine ⟨?_, ?_, ?_, ?_⟩
  · simp [build_stylesheet_lookup, consider_asset, hcss, hlt, setA, getA]
  · simp [build_stylesheet_lookup, consider_asset, hcss, hnlt2, getA]
  · simp [build_stylesheet_lookup, consider_asset, hcss, hnlt3, getA]
  · simp [build_stylesheet_lookup, consider_asset, hcss, hnlt2, style_lines, getA]

/-- Witness for C2 at threshold 2 with assets of sizes 1, 2 and 3. -/
theorem c2_inline_threshold_boundary_witness :
    getA (build_stylesheet_lookup 2 [⟨"a.css", "x"⟩]) "a.css" = some 0 ∧
    getA (build_stylesheet_lookup 2 [⟨"a.css", "xy"⟩]) "a.css" = none ∧
    getA (build_stylesheet_lookup 2 [⟨"a.css", "xyz"⟩]) "a.css" = none ∧
    style_lines (build_stylesheet_lookup 2 [⟨"a.css", "xy"⟩]) ["a.css"] = ([], []) :=
  c2_inline_threshold_boundary 2 "a.css" "x" "xy" "xyz" (by decide) (by decide)
    (by decide) (by decide)

/-- Counterexample to C3: with threshold 1, the first consideration of
`a.css` assigns slot 0, but considering the same asset path again does not
return the previously assigned slot — the loop body of build_server.js
lines 180-188 has no already-assigned guard, so it stores the current table
size as a fresh slot: the recorded slot becomes 1 ≠ 0. -/
theorem c3_counterexample :
    consider_asset 1 [] ⟨"a.css", ""⟩ = [("a.css", 0)] ∧
    getA (consider_asset 1 [("a.css", 0)] ⟨"a.css", ""⟩) "a.css" = some 1 ∧
    build_stylesheet_lookup 1 [⟨"a.css", ""⟩, ⟨"a.css", ""⟩] = [("a.css", 1)] ∧
    (1 : Nat) ≠ 0 := by
  refine ⟨by rfl, by rfl, by rfl, by decide⟩

/-- C3 amended: considering an already-assigned `.css` asset path again
does not return the previous slot; the loop body re-assigns the current
table size (`stylesheet_lookup.size`) as the new slot value, overwriting
the old one, while the table size itself stays unchanged.  Slot stability
within one build therefore rests on each asset path occurring at most once
in `client.assets`. -/
theorem c3_reconsider_overwrites (T : Nat) (lookup : List (String × Nat))
    (name src : String) (slot : Nat)
    (hmem : getA lookup name = some slot)
    (hcss : ends_with name ".css" = true) (hsize : src.length < T) :
    getA (consider_asset T lookup ⟨name, src⟩) name = some lookup.length ∧
    (consider_asset T lookup ⟨name, src⟩).length = lookup.length := by
  constructor
  · simp [consider_asset, hcss, hsize, getA_setA_same]
  · simp only [consider_asset, hcss, if_true, hsize]
    exact length_setA_of_get lookup name lookup.length slot hmem

/-- Witness for the amended C3 at a one-entry table. -/
theorem c3_reconsider_overwrites_witness :
    getA (consider_asset 1 [("a.css", 0)] ⟨"a.css", ""⟩) "a.css" = some 1 ∧
    (consider_asset 1 [("a.css", 0)] ⟨"a.css", ""⟩).length = 1 :=
  c3_reconsider_overwrites 1 [("a.css", 0)] "a.css" "" 0 (by rfl) (by rfl)
    (by decide)

theorem getA_method_insert_hit (lookup m : List (String × List String))
    (f : String) (exps : List String) (hlk : getA lookup f = some exps) :
    getA (method_insert lookup m f) f = some (exps.filter is_http_method) := by
  unfold method_insert
  rw [hlk]
  exact getA_setA_same m f _

theorem getA_method_insert_preserves (lookup m : List (String × List String))
    (g f : String) (exps : List String)
    (hlk : getA lookup f = some exps)
    (hm : getA m f = some (exps.filter is_http_method)) :
    getA (method_insert lookup m g) f = some (exps.filter is_http_method) := by
  unfold method_insert
  cases hg : getA lookup g with
  | none => exact hm
  | some e2 =>
    by_cases hgf : g = f
    · subst hgf
      rw [hlk] at hg
      cases hg
      exact getA_setA_same m g _
    · rw [getA_setA_ne m g f _ hgf]
      exact hm

theorem getA_method_insert_miss (lookup m : List (String × List String))
    (g f : String)
    (hlk : getA lookup f = none) (hm : getA m f = none) :
    getA (method_insert lookup m g) f = none := by
  unfold method_insert
  cases hg : getA lookup g with
  | none => exact hm
  | some e2 =>
    by_cases hgf : g = f
    · subst hgf
      rw [hlk] at hg
      cases hg
    · rw [getA_setA_ne m g f _ hgf]
      exact hm

theorem route_step_preserves (lookup m : List (String × List String))
    (route : Route) (f : String) (exps : List String)
    (hlk : getA lookup f = some exps)
    (hm : getA m f = some (exps.filter is_http_method)) :
    getA (route_step lookup m route) f = some (exps.filter is_http_method) := by
  unfold route_step
  have h1 : ∀ m1, getA m1 f = some (exps.filter is_http_method) →
      getA (match route.leaf_server with
            | none => m1
            | some g => if g = "" then m1 else method_insert lookup m1 g) f =
        some (exps.filter is_http_method) := by
    intro m1 hm1
    cases route.leaf_server with
    | none => exact hm1
    | some g =>
      by_cases hg : g = ""
      · simp [hg, hm1]
      · simp only [if_neg hg]
        exact getA_method_insert_preserves lookup m1 g f exps hlk hm1
  cases route.endpoint with
  | none => exact h1 m hm
  | some g => exact h1 _ (getA_method_insert_preserves lookup m g f exps hlk hm)

theorem route_step_hits (lookup m : List (String × List String))
    (route : Route) (f : String) (exps : List String)
    (hlk : getA lookup f = some exps)
    (hhit : route.endpoint = some f ∨ (route.leaf_server = some f ∧ f ≠ "")) :
    getA (route_step lookup m route) f = some (exps.filter is_http_method) := by
  unfold route_step
  cases hhit with
  | inl he =>
    rw [he]
    have hm1 := getA_method_insert_hit lookup m f exps hlk
    cases route.leaf_server with
    | none => exact hm1
    | some g =>
      by_cases hg : g = ""
      · simp [hg, hm1]
      · simp only [if_neg hg]
        exact getA_method_insert_preserves lookup _ g f exps hlk hm1
  | inr hl =>
    obtain ⟨hlf, hne⟩ := hl
    rw [hlf]
    simp only [if_neg hne]
    exact getA_method_insert_hit lookup _ f exps hlk

theorem foldl_route_step_preserves (lookup : List (String × List String))
    (routes : List Route) (f : String) (exps : List String)
    (hlk : getA lookup f = some exps) :
    ∀ m, getA m f = some (exps.filter is_http_method) →
      getA (routes.foldl (route_step lookup) m) f =
        some (exps.filter is_http_method) := by
  induction routes with
  | nil => intro m hm; simpa using hm
  | cons r rs ih =>
    intro m hm
    simpa using ih (route_step lookup m r) (route_step_preserves lookup m r f exps hlk hm)

theorem foldl_route_step_hits (lookup : List (String × List String))
    (routes : List Route) (f : String) (exps : List String)
    (hlk : getA lookup f = some exps) :
    ∀ (m : List (String × List String)) (r : Route), r ∈ routes →
      (r.endpoint = some f ∨ (r.leaf_server = some f ∧ f ≠ "")) →
      getA (routes.foldl (route_step lookup) m) f =
        some (exps.filter is_http_method) := by
  induction routes with
  | nil =>
    intro m r hr
    cases hr
  | cons a rs ih =>
    intro m r hr hhit
    rcases List.mem_cons.mp hr with h | h
    · subst h
      simp only [List.foldl_cons]
      exact foldl_route_step_preserves lookup rs f exps hlk _
        (route_step_hits lookup m r f exps hlk hhit)
    · simp only [List.foldl_cons]
      exact ih _ r h hhit

theorem route_step_misses (lookup m : List (String × List String))
    (route : Route) (f : String)
    (hlk : getA lookup f = none) (hm : getA m f = none) :
    getA (route_step lookup m route) f = none := by
  unfold route_step
  have h1 : ∀ m1, getA m1 f = none →
      getA (match route.leaf_server with
            | none => m1
            | some g => if g = "" then m1 else method_insert lookup m1 g) f =
        none := by
    intro m1 hm1
    cases route.leaf_server with
    | none => exact hm1
    | some g =>
      by_cases hg : g = ""
      · simp [hg, hm1]
      · simp only [if_neg hg]
        exact getA_method_insert_miss lookup m1 g f hlk hm1
  cases route.endpoint with
  | none => exact h1 m hm
  | some g => exact h1 _ (getA_method_insert_miss lookup m g f hlk hm)

theorem foldl_route_step_misses (lookup : List (String × List String))
    (routes : List Route) (f : String) (hlk : getA lookup f = none) :
    ∀ m, getA m f = none →
      getA (routes.foldl (route_step lookup) m) f = none := by
  induction routes with
  | nil => intro m hm; simpa using hm
  | cons r rs ih =>
    intro m hm
    simpa using ih _ (route_step_misses lookup m r f hlk hm)

/-- C6: for every route with an endpoint or server-logic file that has an
entry in the compiled export lists, the method table entry for that file is
exactly the export list filtered to the fixed set GET, POST, PUT, PATCH,
DELETE, OPTIONS, HEAD in the compiler's export order; in particular the
export list GET, POST, config, default filters to exactly GET, POST. -/
theorem c6_method_filtering (canon : String → String) (output : List OutputChunk)
    (routes : List Route) (f : String) (exps : List String)
    (hlk : getA (build_lookup canon output) f = some exps)
    (hhit : ∃ r, r ∈ routes ∧
      (r.endpoint = some f ∨ (r.leaf_server = some f ∧ f ≠ ""))) :
    getA (get_methods canon output routes) f =
      some (exps.filter is_http_method) ∧
    ["GET", "POST", "config", "default"].filter is_http_method =
      ["GET", "POST"] := by
  obtain ⟨r, hr, hhit⟩ := hhit
  refine ⟨?_, by decide⟩
  unfold get_methods
  exact foldl_route_step_hits (build_lookup canon output) routes f exps hlk [] r hr hhit

/-- Witness for C6: the example endpoint whose compiled exports are GET,
POST, config, default receives exactly the method list GET, POST. -/
theorem c6_method_filtering_witness :
    getA (get_methods id methods_output methods_routes)
      "src/routes/x/+server.js" = some ["GET", "POST"] := by
  have h := c6_method_filtering id methods_output methods_routes
    "src/routes/x/+server.js" ["GET", "POST", "config", "default"] (by rfl)
    ⟨⟨some "src/routes/x/+server.js", none⟩, by simp [methods_routes], Or.inl rfl⟩
  have hfil : ["GET", "POST", "config", "default"].filter is_http_method =
      ["GET", "POST"] := by decide
  rw [hfil] at h
  exact h.1

/-- C7: a route whose endpoint or server-logic file has no entry in the
compiled export lists is simply omitted from the method table; the
extraction is a total function (no error is raised) and other routes are
unaffected. -/
theorem c7_missing_exports_omitted (canon : String → String)
    (output : List OutputChunk) (routes : List Route) (f : String)
    (hnone : getA (build_lookup canon output) f = none) :
    getA (get_methods canon output routes) f = none := by
  unfold get_methods
  exact foldl_route_step_misses (build_lookup canon output) routes f hnone [] rfl

/-- Witness for C7: a file absent from the compiled output yields no method
table entry. -/
theorem c7_missing_exports_omitted_witness :
    getA (get_methods id methods_output methods_routes) "ghost.js" = none :=
  c7_missing_exports_omitted id methods_output methods_routes "ghost.js" (by rfl)

/-- C8: the body of the generated `get_hooks` is a deferred `import(...)` of
the hooks file when one was located on disk (its internal-relative path
being a nonempty string), and the empty object literal otherwise. -/
theorem c8_hook_loader (rel : String) (hne : rel ≠ "") :
    server_template_hooks (hooks_arg true rel) = HooksExpr.deferredImport rel ∧
    server_template_hooks (hooks_arg false rel) = HooksExpr.emptyObject := by
  constructor
  · simp [server_template_hooks, hooks_arg, hne]
  · simp [server_template_hooks, hooks_arg]

/-- Witness for C8 at a concrete hooks path. -/
theorem c8_hook_loader_witness :
    server_template_hooks (hooks_arg true "../../src/hooks.server.js") =
      HooksExpr.deferredImport "../../src/hooks.server.js" ∧
    server_template_hooks (hooks_arg false "../../src/hooks.server.js") =
      HooksExpr.emptyObject :=
  c8_hook_loader "../../src/hooks.server.js" (by decide)

theorem foldl_setA_keys (l : List (String × String)) :
    ∀ (acc : List (String × String)) (k : String),
      k ∈ (l.foldl (fun a kv => setA a kv.1 kv.2) acc).map Prod.fst ↔
        k ∈ acc.map Prod.fst ∨ k ∈ l.map Prod.fst := by
  induction l with
  | nil => intro acc k; simp
  | cons p rest ih =>
    intro acc k
    simp only [List.foldl_cons, List.map_cons, List.mem_cons]
    rw [ih, mem_keys_setA]
    tauto

theorem mem_keys_fromEntries (l : List (String × String)) (k : String) :
    k ∈ (fromEntries l).map Prod.fst ↔ k ∈ l.map Prod.fst := by
  unfold fromEntries
  rw [foldl_setA_keys]
  simp

theorem mem_keys_filter (l : List (String × String)) (q : String → Bool)
    (k : String) :
    k ∈ (l.filter (fun kv => q kv.1)).map Prod.fst ↔
      k ∈ l.map Prod.fst ∧ q k = true := by
  induction l with
  | nil => simp
  | cons p rest ih =>
    by_cases hq : q p.1 = true
    · rw [List.filter_cons, if_pos (by simpa using hq)]
      simp only [List.map_cons, List.mem_cons, ih]
      constructor
      · rintro (rfl | ⟨hk, hqk⟩)
        · exact ⟨Or.inl rfl, hq⟩
        · exact ⟨Or.inr hk, hqk⟩
      · rintro ⟨rfl | hk, hqk⟩
        · exact Or.inl rfl
        · exact Or.inr ⟨hk, hqk⟩
    · rw [List.filter_cons, if_neg (by simpa using hq)]
      simp only [List.map_cons, List.mem_cons, ih]
      constructor
      · rintro ⟨hk, hqk⟩
        exact ⟨Or.inr hk, hqk⟩
      · rintro ⟨rfl | hk, hqk⟩
        · exact absurd hqk hq
        · exact ⟨hk, hqk⟩

theorem server_init_env_eq {H E F : Type u} ( public_prefix : String)
    (fallbacks : Hooks H E F) (hook_module : HookModule H E F)
    (st : ServerState H E F) (env : List (String × String)) :
    (server_init public_prefix fallbacks hook_module st env).public_env =
      fromEntries (env.filter (fun kv => starts_with kv.1 public_prefix)) ∧
    (server_init public_prefix fallbacks hook_module st env).private_env =
      fromEntries (env.filter (fun kv => !(starts_with kv.1 public_prefix))) := by
  unfold server_init
  cases h : st.hooks <;> simp [h]

/-- C9: `Server.init` places each environment variable in exactly one of the
two tables — a key is in the public table iff it is an env key starting
with the configured public prefix, in the private table iff it is an env
key not starting with it — so the tables are disjoint and together cover
every entry. -/
theorem c9_env_partition {H E F : Type u} ( public_prefix : String)
    (fallbacks : Hooks H E F) (hook_module : HookModule H E F)
    (st : ServerState H E F) (env : List (String × String)) (k : String) :
    (k ∈ (server_init public_prefix fallbacks hook_module st env).public_env.map
        Prod.fst ↔
      k ∈ env.map Prod.fst ∧ starts_with k public_prefix = true) ∧
    (k ∈ (server_init public_prefix fallbacks hook_module st env).private_env.map
        Prod.fst ↔
      k ∈ env.map Prod.fst ∧ starts_with k public_prefix = false) ∧
    ¬(k ∈ (server_init public_prefix fallbacks hook_module st env).public_env.map
          Prod.fst ∧
      k ∈ (server_init public_prefix fallbacks hook_module st env).private_env.map
          Prod.fst) ∧
    (k ∈ env.map Prod.fst →
      k ∈ (server_init public_prefix fallbacks hook_module st env).public_env.map
          Prod.fst ∨
      k ∈ (server_init public_prefix fallbacks hook_module st env).private_env.map
          Prod.fst) := by
  have henv := server_init_env_eq public_prefix fallbacks hook_module st env
  have hpub : k ∈ (server_init public_prefix fallbacks hook_module st
      env).public_env.map Prod.fst ↔
      k ∈ env.map Prod.fst ∧ starts_with k public_prefix = true := by
    rw [henv.1, mem_keys_fromEntries,
      mem_keys_filter env (fun s => starts_with s public_prefix) k]
  have hprv : k ∈ (server_init public_prefix fallbacks hook_module st
      env).private_env.map Prod.fst ↔
      k ∈ env.map Prod.fst ∧ starts_with k public_prefix = false := by
    rw [henv.2, mem_keys_fromEntries,
      mem_keys_filter env (fun s => !(starts_with s public_prefix)) k]
    cases hb : starts_with k public_prefix <;> simp [hb]
  refine ⟨hpub, hprv, ?_, ?_⟩
  · rintro ⟨h1, h2⟩
    rw [hpub] at h1
    rw [hprv] at h2
    rw [h1.2] at h2
    exact Bool.noConfusion h2.2
  · intro hk
    cases hb : starts_with k public_prefix with
    | true => exact Or.inl (hpub.mpr ⟨hk, hb⟩)
    | false => exact Or.inr (hprv.mpr ⟨hk, hb⟩)

/-- Witness for C9: with prefix PUBLIC_, the key PUBLIC_X of a two-entry
environment lands in the public table. -/
theorem c9_env_partition_witness :
    ("PUBLIC_X" : String) ∈
      (server_init "PUBLIC_" (⟨(), (), ()⟩ : Hooks Unit Unit Unit)
        ⟨none, none, none⟩ ⟨none, [], []⟩
        [("PUBLIC_X", "1"), ("SECRET", "2")]).public_env.map Prod.fst :=
  (c9_env_partition "PUBLIC_" ⟨(), (), ()⟩ ⟨none, none, none⟩ ⟨none, [], []⟩
      [("PUBLIC_X", "1"), ("SECRET", "2")] "PUBLIC_X").1.mpr
    ⟨by decide, by decide⟩

theorem server_init_hooks_eq {H E F : Type u} ( public_prefix : String)
    (fallbacks : Hooks H E F) (hook_module : HookModule H E F)
    (st : ServerState H E F) (env : List (String × String)) :
    (server_init public_prefix fallbacks hook_module st env).hooks =
      some (match st.hooks with
            | some h => h
            | none => mk_hooks fallbacks hook_module) := by
  unfold server_init
  cases h : st.hooks <;> simp [h]

/-- C10: `Server.init` is idempotent with respect to hooks — a second call
on the same server leaves the hooks installed by the first call unchanged,
and hooks already present before a call are never overwritten (the `if
(!this.options.hooks)` guard of runtime/server/index.js line 30). -/
theorem c10_init_hooks_idempotent {H E F : Type u} ( public_prefix : String)
    (fallbacks : Hooks H E F) (hook_module : HookModule H E F)
    (st : ServerState H E F) (env1 env2 : List (String × String)) :
    (server_init public_prefix fallbacks hook_module
        (server_init public_prefix fallbacks hook_module st env1) env2).hooks =
      (server_init public_prefix fallbacks hook_module st env1).hooks ∧
    (∀ h, st.hooks = some h →
      (server_init public_prefix fallbacks hook_module st env1).hooks = some h) := by
  constructor
  · rw [server_init_hooks_eq, server_init_hooks_eq]
  · intro h hh
    rw [server_init_hooks_eq, hh]

/-- Witness for C10: hooks already installed before a call survive it. -/
theorem c10_init_hooks_idempotent_witness :
    (server_init "PUBLIC_" (⟨(), (), ()⟩ : Hooks Unit Unit Unit)
        ⟨none, none, none⟩ ⟨some ⟨(), (), ()⟩, [], []⟩ []).hooks =
      some ⟨(), (), ()⟩ :=
  (c10_init_hooks_idempotent "PUBLIC_" ⟨(), (), ()⟩ ⟨none, none, none⟩
      ⟨some ⟨(), (), ()⟩, [], []⟩ [] []).2 ⟨(), (), ()⟩ rfl

theorem emit_component_spec (canon : String → String)
    (cm sm : List (String × GraphEntry)) (acc : EmitAcc) (oc : Option String)
    (acc1 : EmitAcc) (h : emit_component canon cm sm acc oc = .ok acc1) :
    acc1.imports = acc.imports ∧
    ∃ ext, acc1.exports = acc.exports ++ ext ∧
      (∀ n f, EmitLine.exportLazy n f ∈ ext → n = "component") ∧
      (∀ c, oc = some c → ∃ f, EmitLine.exportLazy "component" f ∈ ext) := by
  cases oc with
  | none =>
    cases h
    exact ⟨rfl, [], by simp⟩
  | some c =>
    unfold emit_component at h
    dsimp only at h
    cases hfd : find_deps canon cm c with
    | error e => rw [hfd] at h; cases h
    | ok entry =>
      rw [hfd] at h
      cases hrs : resolve_symlinks canon sm c with
      | error e => rw [hrs] at h; cases h
      | ok res =>
        rw [hrs] at h
        cases h
        refine ⟨rfl, [EmitLine.exportLazy "component" res.2.file,
          EmitLine.exportFile entry.file], rfl, ?_, ?_⟩
        · intro n f hf
          rcases List.mem_cons.mp hf with h1 | h1
          · cases h1; rfl
          · rcases List.mem_cons.mp h1 with h2 | h2
            · cases h2
            · cases h2
        · intro c2 hc2
          exact ⟨res.2.file, by simp⟩

theorem emit_universal_spec (canon : String → String)
    (cm sm : List (String × GraphEntry)) (acc : EmitAcc) (ou : Option String)
    (acc2 : EmitAcc) (h : emit_universal canon cm sm acc ou = .ok acc2) :
    ∃ exti extx, acc2.imports = acc.imports ++ exti ∧
      acc2.exports = acc.exports ++ extx ∧
      (∀ n f, EmitLine.exportLazy n f ∉ extx) ∧
      (∀ u, ou = some u →
        (∃ f, EmitLine.importStar "universal" f ∈ exti) ∧
        EmitLine.exportNames "universal" ∈ extx) := by
  cases ou with
  | none =>
    cases h
    exact ⟨[], [], by simp, by simp, by simp, by simp⟩
  | some u =>
    unfold emit_universal at h
    dsimp only at h
    cases hfd : find_deps canon cm u with
    | error e => rw [hfd] at h; cases h
    | ok entry =>
      rw [hfd] at h
      cases hga : getA sm u with
      | none => rw [hga] at h; cases h
      | some chunk =>
        rw [hga] at h
        cases h
        refine ⟨[EmitLine.importStar "universal" chunk.file],
          [EmitLine.exportNames "universal"], rfl, rfl, ?_, ?_⟩
        · intro n f hf
          rcases List.mem_cons.mp hf with h1 | h1
          · cases h1
          · cases h1
        · intro u2 hu2
          exact ⟨⟨chunk.file, by simp⟩, by simp⟩

theorem emit_server_spec (sm : List (String × GraphEntry)) (acc : EmitAcc)
    (os : Option String) (acc3 : EmitAcc)
    (h : emit_server sm acc os = .ok acc3) :
    ∃ exti extx, acc3.imports = acc.imports ++ exti ∧
      acc3.exports = acc.exports ++ extx ∧
      (∀ n f, EmitLine.exportLazy n f ∉ extx) ∧
      (∀ sv, os = some sv →
        (∃ f, EmitLine.importStar "server" f ∈ exti) ∧
        EmitLine.exportNames "server" ∈ extx) := by
  cases os with
  | none =>
    cases h
    exact ⟨[], [], by simp, by simp, by simp, by simp⟩
  | some sv =>
    unfold emit_server at h
    dsimp only at h
    cases hga : getA sm sv with
    | none => rw [hga] at h; cases h
    | some chunk =>
      rw [hga] at h
      cases h
      refine ⟨[EmitLine.importStar "server" chunk.file],
        [EmitLine.exportNames "server"], rfl, rfl, ?_, ?_⟩
      · intro n f hf
        rcases List.mem_cons.mp hf with h1 | h1
        · cases h1
        · cases h1
      · intro s2 hs2
        exact ⟨⟨chunk.file, by simp⟩, by simp⟩

theorem emit_finish_spec (lookup : List (String × Nat)) (acc : EmitAcc) :
    ∃ exti extx, (emit_finish lookup acc).1 = acc.imports ++ exti ∧
      (emit_finish lookup acc).2 = acc.exports ++ extx ∧
      (∀ n f, EmitLine.exportLazy n f ∉ extx) := by
  unfold emit_finish
  by_cases hc : 0 < (style_lines lookup acc.stylesheets).2.length
  · refine ⟨(style_lines lookup acc.stylesheets).1,
      [EmitLine.exportStrArr "imports" acc.imported,
       EmitLine.exportStrArr "stylesheets" acc.stylesheets,
       EmitLine.exportStrArr "fonts" acc.fonts,
       EmitLine.exportInlineStyles (style_lines lookup acc.stylesheets).2],
      rfl, ?_, ?_⟩
    · simp [hc]
    · intro n f hf
      rcases List.mem_cons.mp hf with h1 | h1
      · cases h1
      rcases List.mem_cons.mp h1 with h2 | h2
      · cases h2
      rcases List.mem_cons.mp h2 with h3 | h3
      · cases h3
      rcases List.mem_cons.mp h3 with h4 | h4
      · cases h4
      · cases h4
  · refine ⟨(style_lines lookup acc.stylesheets).1,
      [EmitLine.exportStrArr "imports" acc.imported,
       EmitLine.exportStrArr "stylesheets" acc.stylesheets,
       EmitLine.exportStrArr "fonts" acc.fonts],
      rfl, ?_, ?_⟩
    · simp [hc]
    · intro n f hf
      rcases List.mem_cons.mp hf with h1 | h1
      · cases h1
      rcases List.mem_cons.mp h1 with h2 | h2
      · cases h2
      rcases List.mem_cons.mp h2 with h3 | h3
      · cases h3
      · cases h3

/-- C4 amended: in every emitted node module the component role is exposed
behind a lazy loader (a deferred import), while both the client-logic
(universal) role and the server-logic role are exposed as direct synchronous
star imports re-exported by name; no lazy loader is ever emitted for a role
other than the component. -/
theorem c4_role_exposure (canon : String → String)
    (cm sm : List (String × GraphEntry)) (lookup : List (String × Nat))
    (i : Nat) (node : PageNode) (imps exps : List EmitLine)
    (h : emit_node canon cm sm lookup i node = .ok (imps, exps)) :
    (∀ c, node.component = some c →
      ∃ f, EmitLine.exportLazy "component" f ∈ exps) ∧
    (∀ u, node.universal = some u →
      (∃ f, EmitLine.importStar "universal" f ∈ imps) ∧
      EmitLine.exportNames "universal" ∈ exps) ∧
    (∀ sv, node.server = some sv →
      (∃ f, EmitLine.importStar "server" f ∈ imps) ∧
      EmitLine.exportNames "server" ∈ exps) ∧
    (∀ n f, EmitLine.exportLazy n f ∈ exps → n = "component") := by
  unfold emit_node at h
  cases h1 : emit_component canon cm sm ⟨[], [EmitLine.exportIndex i], [], [], []⟩
      node.component with
  | error e => rw [h1] at h; cases h
  | ok acc1 =>
    rw [h1] at h
    dsimp only at h
    cases h2 : emit_universal canon cm sm acc1 node.universal with
    | error e => rw [h2] at h; cases h
    | ok acc2 =>
      rw [h2] at h
      dsimp only at h
      cases h3 : emit_server sm acc2 node.server with
      | error e => rw [h3] at h; cases h
      | ok acc3 =>
        rw [h3] at h
        dsimp only at h
        injection h with hpair
        obtain ⟨hi1, ext1x, he1, hlazy1, hcomp1⟩ :=
          emit_component_spec canon cm sm _ node.component acc1 h1
        obtain ⟨ext2i, ext2x, hi2, he2, hnolazy2, huniv2⟩ :=
          emit_universal_spec canon cm sm acc1 node.universal acc2 h2
        obtain ⟨ext3i, ext3x, hi3, he3, hnolazy3, hserv3⟩ :=
          emit_server_spec sm acc2 node.server acc3 h3
        obtain ⟨fexti, fextx, hfi, hfe, hfnolazy⟩ := emit_finish_spec lookup acc3
        have hpi : (emit_finish lookup acc3).1 = imps := congrArg Prod.fst hpair
        have hpe : (emit_finish lookup acc3).2 = exps := congrArg Prod.snd hpair
        have himps : imps = ((acc1.imports ++ ext2i) ++ ext3i) ++ fexti := by
          rw [← hpi, hfi, hi3, hi2]
        have hexps : exps = (((acc1.exports ++ ext2x) ++ ext3x) ++ fextx) := by
          rw [← hpe, hfe, he3, he2]
        have he1x : acc1.exports = [EmitLine.exportIndex i] ++ ext1x := he1
        refine ⟨?_, ?_, ?_, ?_⟩
        · intro c hc
          obtain ⟨f, hf⟩ := hcomp1 c hc
          refine ⟨f, ?_⟩
          rw [hexps, he1x]
          simp [hf]
        · intro u2 hu
          obtain ⟨⟨f, hfmem⟩, hex⟩ := huniv2 u2 hu
          constructor
          · refine ⟨f, ?_⟩
            rw [himps]
            simp [hfmem]
          · rw [hexps]
            simp [hex]
        · intro s2 hs
          obtain ⟨⟨f, hfmem⟩, hex⟩ := hserv3 s2 hs
          constructor
          · refine ⟨f, ?_⟩
            rw [himps]
            simp [hfmem]
          · rw [hexps]
            simp [hex]
        · intro n f hf
          rw [hexps, he1x] at hf
          simp only [List.mem_append, List.mem_cons, List.not_mem_nil, or_false] at hf
          rcases hf with (((hf | hf) | hf) | hf) | hf
          · exact absurd hf (by simp)
          · exact hlazy1 n f hf
          · exact absurd hf (hnolazy2 n f)
          · exact absurd hf (hnolazy3 n f)
          · exact absurd hf (hfnolazy n f)

/-- Witness for the amended C4 at the concrete node with all three roles. -/
theorem c4_role_exposure_witness :
    (∃ f, EmitLine.exportLazy "component" f ∈ c4_exports) ∧
    (∃ f, EmitLine.importStar "universal" f ∈ c4_imports) ∧
    EmitLine.exportNames "universal" ∈ c4_exports ∧
    (∃ f, EmitLine.importStar "server" f ∈ c4_imports) ∧
    EmitLine.exportNames "server" ∈ c4_exports := by
  have h := c4_role_exposure id c4_client_manifest c4_server_manifest [] 0
    c4_node c4_imports c4_exports (by rfl)
  exact ⟨h.1 "c.svelte" rfl, (h.2.1 "u.js" rfl).1, (h.2.1 "u.js" rfl).2,
    (h.2.2.1 "s.js" rfl).1, (h.2.2.1 "s.js" rfl).2⟩

/-- Counterexample to C4: at a node with all three roles, the emitted module
puts only the component behind a lazy loader; the universal (client-logic)
role is a direct synchronous star import, and no lazy loader referring to
`universal` is emitted, contradicting the claim that the client-logic role
is behind a deferred import. -/
theorem c4_counterexample :
    emit_node id c4_client_manifest c4_server_manifest [] 0 c4_node =
      Except.ok (c4_imports, c4_exports) ∧
    EmitLine.importStar "universal" "u-server.js" ∈ c4_imports ∧
    (∀ f, EmitLine.exportLazy "universal" f ∉ c4_exports) := by
  refine ⟨by rfl, by simp [c4_imports], ?_⟩
  intro f hf
  simp only [c4_exports, List.mem_cons, List.not_mem_nil, or_false] at hf
  rcases hf with h | h | h | h | h | h | h | h
  all_goals first
    | exact EmitLine.noConfusion h
    | (injection h with h1 h2; exact absurd h1 (by decide))

